import Mathlib

/-!
Verification development for the schema-driven form/validation/rendering
engine of the dashboard-builder repository.

Output side: a shallow embedding of
`src/frontend/src/components/OutputRenderer.tsx` — the component's
top-to-bottom branch cascade over a JSON-like runtime value
(the spec's `classify`).

Input side: a shallow embedding of
`src/frontend/src/components/DynamicForm.tsx` — `jsonSchemaToZod`
(the spec's `compile`) together with the per-field input coercion done by
the form's change handlers and the zod object parse (the spec's `validate`).
-/

set_option autoImplicit false

namespace Interface

/-- JSON-like runtime values (the `data : any` prop of `OutputRenderer`). -/
inductive Value where
  | null
  | bool (b : Bool)
  | num (q : Rat)
  | str (s : String)
  | arr (elems : List Value)
  | obj (fields : List (String × Value))

/-- The JavaScript `typeof` operator restricted to `Value`.
Note `typeof null = "object"` — this is load-bearing for the table branch. -/
def jsTypeof : Value → String
  | .null => "object"
  | .bool _ => "boolean"
  | .num _ => "number"
  | .str _ => "string"
  | .arr _ => "object"
  | .obj _ => "object"

/-- First-match association-list lookup (JS object property access;
object keys are unique in JS, so first match is the JS semantics). -/
def lookupV {α : Type} : List (String × α) → String → Option α
  | [], _ => none
  | (k', v) :: r, k => if k' = k then some v else lookupV r k

/-- Does the char list start with the given pattern? -/
def startsWithL : List Char → List Char → Bool
  | [], _ => true
  | _ :: _, [] => false
  | p :: ps, c :: cs => p == c && startsWithL ps cs

/-- Does the char list end with the given pattern? -/
def endsWithL (pat l : List Char) : Bool :=
  startsWithL pat.reverse l.reverse

/-- `/\.(jpg|jpeg|png|gif|webp|svg)$/i.test(data)` from the image branch. -/
def imageExtTest (s : String) : Bool :=
  [".jpg", ".jpeg", ".png", ".gif", ".webp", ".svg"].any
    (fun e => endsWithL e.data (s.data.map Char.toLower))

/-- `/\.(pdf|csv|xlsx|xls|doc|docx|zip)$/i.test(data)` from the file branch. -/
def fileExtTest (s : String) : Bool :=
  [".pdf", ".csv", ".xlsx", ".xls", ".doc", ".docx", ".zip"].any
    (fun e => endsWithL e.data (s.data.map Char.toLower))

/-- `data.includes(c)` for a single-character needle. -/
def containsChar (s : String) (c : Char) : Bool :=
  s.data.contains c

/-- JS number-to-string for the numbers the theorems exercise: integral
values print like JS (`String(18) = "18"`); non-integral rationals keep
Lean's rational printing (JS float formatting is out of scope). -/
def jsNumToString (q : Rat) : String :=
  if q.den = 1 then toString q.num else toString q

/-- String-to-string scalar conversion `String(v)` for non-object values.
Callers guard on `jsTypeof v ≠ "object"`, so the `arr`/`obj` cases below are
never reached by the embedded code paths. -/
def jsToString : Value → String
  | .str s => s
  | .num q => jsNumToString q
  | .bool true => "true"
  | .bool false => "false"
  | .null => "null"
  | .arr _ => ""
  | .obj _ => ""

/-- Escape a JSON string character the way `JSON.stringify` does for the
quote and backslash (control-character escapes are out of scope). -/
def jsonEscapeChar (c : Char) : List Char :=
  if c = '"' ∨ c = '\\' then ['\\', c] else [c]

/-- Comma-join a list of rendered pieces. -/
def joinComma : List String → String
  | [] => ""
  | [x] => x
  | x :: y :: r => x ++ "," ++ joinComma (y :: r)

mutual

/-- Compact `JSON.stringify(v)` used for object-typed table cells and
list items. -/
def jsonStringify : Value → String
  | .null => "null"
  | .bool true => "true"
  | .bool false => "false"
  | .num q => jsNumToString q
  | .str s => "\"" ++ String.mk (s.data.flatMap jsonEscapeChar) ++ "\""
  | .arr l => "[" ++ joinComma (jsonStringifyList l) ++ "]"
  | .obj fs => "\x7b" ++ joinComma (jsonStringifyPairs fs) ++ "\x7d"

def jsonStringifyList : List Value → List String
  | [] => []
  | v :: r => jsonStringify v :: jsonStringifyList r

def jsonStringifyPairs : List (String × Value) → List String
  | [] => []
  | (k, v) :: r =>
      ("\"" ++ String.mk (k.data.flatMap jsonEscapeChar) ++ "\":" ++ jsonStringify v)
        :: jsonStringifyPairs r

end

/-! ### Sanitizer

`OutputRenderer` renders markup through `DOMPurify.sanitize(data)`.
DOMPurify is an external dependency (not part of this repository's sources),
so the sanitizer below is *modelled from the spec*: "strip script-executing
constructs, event-handler attributes, and non-allow-listed tags before
producing" the markup variant.  The model parses the string into text runs
and tags, drops every tag whose (lowercased) name is not on a fixed
allow-list, drops every attribute whose name starts with `on` (event
handlers) or that contains `<`, and escapes stray `<` characters that do
not open a well-formed tag. -/

/-- A parsed markup token: a text run, or a tag with its name and
`name=value` attributes. -/
inductive Tok where
  | text (t : List Char)
  | tag (name : List Char) (attrs : List (List Char × List Char))

/-- Replace every `<` by the entity `&lt;` (how escaped text is emitted). -/
def escapeLt : List Char → List Char
  | [] => []
  | c :: r => if c = '<' then '&' :: 'l' :: 't' :: ';' :: escapeLt r else c :: escapeLt r

/-- Parse the inside of a tag (`name attr=val attr=val …`). -/
def parseTag (tc : List Char) : Tok :=
  let name := (tc.takeWhile (fun c => c ≠ ' ')).map Char.toLower
  let attrSrc := tc.dropWhile (fun c => c ≠ ' ')
  let words := (attrSrc.splitOn ' ').filter (fun w => w ≠ [])
  let attrs := words.map (fun w =>
    (w.takeWhile (fun c => c ≠ '='), (w.dropWhile (fun c => c ≠ '=')).drop 1))
  .tag name attrs

/-- Fuelled markup tokenizer; fuel bounds the recursion depth (each step
consumes at least one character, so `length + 1` fuel always suffices). -/
def tokenizeFuel : Nat → List Char → List Tok
  | 0, _ => []
  | _, [] => []
  | fuel + 1, c :: rest =>
      if c = '<' then
        match rest.dropWhile (fun x => x ≠ '>') with
        | '>' :: after =>
            parseTag (rest.takeWhile (fun x => x ≠ '>')) :: tokenizeFuel fuel after
        | _ => [.text (escapeLt (c :: rest))]
      else
        .text ((c :: rest).takeWhile (fun x => x ≠ '<'))
          :: tokenizeFuel fuel ((c :: rest).dropWhile (fun x => x ≠ '<'))

/-- Tokenize a markup string. -/
def tokenizeHtml (l : List Char) : List Tok :=
  tokenizeFuel (l.length + 1) l

/-- The fixed tag allow-list (lowercased names). -/
def allowedTags : List (List Char) :=
  ["a", "b", "i", "u", "em", "strong", "p", "div", "span", "ul", "ol", "li",
   "br", "h1", "h2", "h3", "h4", "h5", "h6", "table", "thead", "tbody", "tr",
   "td", "th", "code", "pre", "img", "hr"].map String.data

/-- Does an attribute name start with `on` (an event-handler attribute)? -/
def startsWithOn : List Char → Bool
  | 'o' :: 'n' :: _ => true
  | _ => false

/-- An attribute survives sanitization iff it is not an event handler and
neither its name nor its value contains `<`. -/
def cleanAttr (a : List Char × List Char) : Bool :=
  !startsWithOn a.1 && decide ('<' ∉ a.1) && decide ('<' ∉ a.2)

/-- If `name` is `/elem` with `elem` allow-listed, the element name;
`none` otherwise. -/
def closeBase (name : List Char) : Option (List Char) :=
  match name with
  | c :: n => if c = '/' ∧ n ∈ allowedTags then some n else none
  | [] => none

/-- Sanitize a token stream: keep text (with stray `<` escaped), keep
allow-listed opening tags with cleaned attributes, keep closing tags of
allow-listed elements (attributes discarded), drop every other tag. -/
def sanitizeToks : List Tok → List Tok
  | [] => []
  | .text t :: r => .text (escapeLt t) :: sanitizeToks r
  | .tag name attrs :: r =>
      if name ∈ allowedTags then
        .tag name (attrs.filter cleanAttr) :: sanitizeToks r
      else if (closeBase name).isSome then .tag name [] :: sanitizeToks r
      else sanitizeToks r

/-- Serialize attributes back to ` name=value` runs. -/
def renderAttrs : List (List Char × List Char) → List Char
  | [] => []
  | (an, av) :: r => ' ' :: (an ++ '=' :: av) ++ renderAttrs r

/-- Serialize a token stream back to markup. -/
def renderToks : List Tok → List Char
  | [] => []
  | .text t :: r => t ++ renderToks r
  | .tag n attrs :: r => '<' :: (n ++ renderAttrs attrs) ++ '>' :: renderToks r

/-- Modelled from the spec: `DOMPurify.sanitize` (external dependency not in
the repository sources) — strips non-allow-listed tags and event-handler
attributes and escapes stray `<` before the markup variant is produced. -/
def sanitizeHtml (s : String) : String :=
  String.mk (renderToks (sanitizeToks (tokenizeHtml s.data)))

/-! ### Classification (`OutputRenderer`) -/

/-- The runtime error a JS branch can raise (`Object.keys(null)` /
property access on `null` throw a `TypeError`). -/
inductive JsError where
  | typeError

/-- The render instruction produced by `OutputRenderer`, one variant per
return branch of the component, in source order:
no-output, image, file download, sanitized markup, table, list, boolean
badge, number, plain string, raw-JSON fallback. -/
inductive RenderPlan where
  | noOutput
  | image (src : String)
  | fileDownload (href : String)
  | html (content : String)
  | table (columns : List String) (rows : List (List String))
  | list (items : List String)
  | bool (b : Bool)
  | number (q : Rat)
  | text (s : String)
  | jsonFallback (v : Value)

/-- `Object.keys` on a value, including JS array index keys; object keys
are deduplicated keeping the first occurrence. -/
def dedupKeys (seen : List String) : List String → List String
  | [] => []
  | k :: r => if k ∈ seen then dedupKeys seen r else k :: dedupKeys (k :: seen) r

/-- Parse a string of decimal digits as a `Nat` (JS array index lookup). -/
def strToNat? (s : String) : Option Nat :=
  if s.data ≠ [] ∧ s.data.all Char.isDigit then
    some (s.data.foldl (fun acc c => acc * 10 + (c.toNat - 48)) 0)
  else none

/-- `Object.keys(v)`. -/
def jsKeys : Value → List String
  | .obj fs => dedupKeys [] (fs.map Prod.fst)
  | .arr es => (List.range es.length).map (fun n => toString n)
  | _ => []

/-- `row[key]`: JS property access.  Throws on `null`, yields `none`
(JS `undefined`) when the property is missing. -/
def jsIndex (row : Value) (k : String) : Except JsError (Option Value) :=
  match row with
  | .null => .error .typeError
  | .obj fs => .ok (lookupV fs k)
  | .arr es =>
      .ok (match strToNat? k with | some n => es.get? n | none => none)
  | .str s =>
      .ok (match strToNat? k with
           | some n => (s.data.get? n).map (fun c => .str (String.mk [c]))
           | none => none)
  | _ => .ok none

/-- A table cell / list item:
`typeof x === 'object' ? JSON.stringify(x) : String(x)`;
a missing property is JS `undefined`, and `String(undefined) = "undefined"`. -/
def cellString : Option Value → String
  | none => "undefined"
  | some v => if jsTypeof v == "object" then jsonStringify v else jsToString v

/-- `Except`-valued `List.map` (propagates the first raised `TypeError`). -/
def mapExc {α β : Type} (f : α → Except JsError β) : List α → Except JsError (List β)
  | [] => .ok []
  | a :: r => do
      let b ← f a
      let bs ← mapExc f r
      .ok (b :: bs)

/-- One table row: look every first-row key up in the row and render it. -/
def rowCells (keys : List String) (row : Value) : Except JsError (List String) :=
  mapExc (fun k => (jsIndex row k).map cellString) keys

/-- Shallow embedding of the `OutputRenderer` component
(`src/frontend/src/components/OutputRenderer.tsx`): the spec's `classify`.
The source tests its branches top to bottom on `typeof data`; the branches
are type-disjoint, so matching on the `Value` constructor preserves the
source's precedence, and within the string constructor the source order
(image, file, markup, plain) is kept.  The `Except` layer records the one
place the source can raise: `Object.keys(data[0])` with `data[0] === null`,
and `row[key]` with a `null` row. -/
def classify (data : Value) : Except JsError RenderPlan :=
  match data with
  | .null => .ok .noOutput
  | .str s =>
      if imageExtTest s then .ok (.image s)
      else if fileExtTest s then .ok (.fileDownload s)
      else if containsChar s '<' && containsChar s '>' then
        .ok (.html (sanitizeHtml s))
      else .ok (.text s)
  | .arr l =>
      match l with
      | [] => .ok (.list [])
      | h :: t =>
          if jsTypeof h == "object" then
            match h with
            | .null => .error .typeError
            | _ => do
                let keys := jsKeys h
                let rows ← mapExc (rowCells keys) (h :: t)
                .ok (.table keys rows)
          else .ok (.list ((h :: t).map (fun v => cellString (some v))))
  | .bool b => .ok (.bool b)
  | .num q => .ok (.number q)
  | .obj fs => .ok (.jsonFallback (.obj fs))

/-! ### Form schema (`DynamicForm`)

Shallow embedding of `src/frontend/src/components/DynamicForm.tsx`:
`jsonSchemaToZod` (the spec's `compile`), the per-field raw-input coercion
done by the rendered inputs' change handlers, and the zod object parse
(together, the spec's `validate`). -/

/-- One entry of `JSONSchema.properties` (source `JSONSchemaProperty`).
`type` is an open string because the source switches on it with a default
branch.  `default` is carried for fidelity but — like in the source's
`jsonSchemaToZod` — never consulted by compilation. -/
structure JSONSchemaProperty where
  type : String
  description : Option String := none
  format : Option String := none
  enum : Option (List String) := none
  minimum : Option Rat := none
  maximum : Option Rat := none
  minLength : Option Nat := none
  maxLength : Option Nat := none
  pattern : Option String := none
  accept : Option String := none
deriving DecidableEq

/-- The source `JSONSchema`: ordered properties plus the `required` key
list.  Properties are an ordered list of entries (`Object.entries`
order); a duplicated key behaves like repeated JS object assignment. -/
structure JSONSchema where
  properties : List (String × JSONSchemaProperty)
  required : List String := []

/-- Raw values as they reach the resolver: JS `undefined`, strings from
text inputs, numbers (or `NaN`) from number inputs, booleans from
checkboxes, and `FileList`s (file name and byte size per file). -/
inductive Raw where
  | jsUndefined
  | str (s : String)
  | num (q : Rat)
  | nan
  | bool (b : Bool)
  | fileList (files : List (String × Nat))
deriving DecidableEq

/-- A zod number check, in the order the source attaches them. -/
inductive NumCheck where
  | min (q : Rat) (msg : String)
  | max (q : Rat) (msg : String)
  | int (msg : String)
deriving DecidableEq

/-- A zod string check, in the order the source attaches them. -/
inductive StrCheck where
  | email (msg : String)
  | minLen (n : Nat) (msg : String)
  | maxLen (n : Nat) (msg : String)
  | pattern (p : String) (msg : String)
deriving DecidableEq

/-- The compiled zod validator for one field. -/
inductive Validator where
  | zString (checks : List StrCheck)
  | zEnum (values : List String)
  | zNumber (checks : List NumCheck)
  | zBool
  | zArray
  | zFileList
  | zAny
  | optional (v : Validator)
deriving DecidableEq

/-- Email-shape test (model of zod's `.email()` pattern: one `@` with a
nonempty local part and a dot-separated domain whose labels are
nonempty). -/
def emailOk (s : String) : Bool :=
  match s.data.splitOn '@' with
  | [local_, domain] =>
      local_ ≠ [] && !local_.contains ' ' &&
      (match domain.splitOn '.' with
       | [] => false
       | [_] => false
       | parts => parts.all (fun p => p ≠ [] && !p.contains ' ' && !p.contains '@'))
  | _ => false

/-- Model of `new RegExp(pattern).test(s)` restricted to literal patterns
(a literal pattern matches iff it occurs as a substring).  No claim
exercises non-literal regular expressions. -/
def patternOk (p s : String) : Bool :=
  decide (p.data <:+: s.data)

/-- Compile one property to its zod validator — the `switch` body of
`jsonSchemaToZod` plus the trailing `.optional()` for non-required keys.
JS truthiness: `if (property.minLength)` skips `0`, while
`property.minimum !== undefined` keeps `0`. -/
def numChecksOf (p : JSONSchemaProperty) : List NumCheck :=
  (match p.minimum with
   | some q => [.min q s!"Minimum value is {jsNumToString q}"]
   | none => []) ++
  (match p.maximum with
   | some q => [.max q s!"Maximum value is {jsNumToString q}"]
   | none => [])

def strChecksOf (p : JSONSchemaProperty) : List StrCheck :=
  (match p.minLength with
   | some n => if n ≠ 0 then [.minLen n s!"Minimum length is {n}"] else []
   | none => []) ++
  (match p.maxLength with
   | some n => if n ≠ 0 then [.maxLen n s!"Maximum length is {n}"] else []
   | none => []) ++
  (match p.pattern with
   | some pat => if pat ≠ "" then [.pattern pat "Invalid format"] else []
   | none => [])

def compileProp (p : JSONSchemaProperty) (isRequired : Bool) : Validator :=
  let base : Validator :=
    if p.type = "string" then
      if p.format = some "email" then
        .zString [.email "Invalid email address"]
      else
        match p.enum with
        | some vs => .zEnum vs
        | none => .zString (strChecksOf p)
    else if p.type = "number" then
      .zNumber (numChecksOf p)
    else if p.type = "integer" then
      .zNumber (numChecksOf p ++ [.int "Must be an integer"])
    else if p.type = "boolean" then
      .zBool
    else if p.type = "array" then
      if p.format = some "file" then .optional .zFileList else .zArray
    else .zAny
  if isRequired then base else .optional base

/-- `shape[key] = zodType`: JS object assignment — overwrite in place if
the key exists (keeping its original position), append otherwise. -/
def insertShape (sh : List (String × Validator)) (k : String) (v : Validator) :
    List (String × Validator) :=
  match sh with
  | [] => [(k, v)]
  | (k', v') :: r => if k' = k then (k', v) :: r else (k', v') :: insertShape r k v

/-- The `forEach` loop of `jsonSchemaToZod` accumulating the shape. -/
def buildShape (sh : List (String × Validator)) (req : List String) :
    List (String × JSONSchemaProperty) → List (String × Validator)
  | [] => sh
  | (k, p) :: rest => buildShape (insertShape sh k (compileProp p (req.contains k))) req rest

/-- `jsonSchemaToZod`: the full compiled shape, in insertion order
(the spec's `CompiledForm`). -/
def jsonSchemaToZod (schema : JSONSchema) : List (String × Validator) :=
  buildShape [] schema.required schema.properties

/-- The spec's `SchemaError`. -/
structure SchemaError where
  message : String
deriving DecidableEq

/-- The spec's `compile` interface over `jsonSchemaToZod`.  The source has
no failure path at all — `jsonSchemaToZod` returns a zod object for every
input — so `compile` always returns `.ok`. -/
def compile (schema : JSONSchema) : Except SchemaError (List (String × Validator)) :=
  .ok (jsonSchemaToZod schema)

/-- Run one zod number check; `some msg` is a raised issue. -/
def numCheckIssue (q : Rat) : NumCheck → Option String
  | .min m msg => if q < m then some msg else none
  | .max m msg => if m < q then some msg else none
  | .int msg => if q.den ≠ 1 then some msg else none

/-- Run one zod string check; `some msg` is a raised issue. -/
def strCheckIssue (s : String) : StrCheck → Option String
  | .email msg => if emailOk s then none else some msg
  | .minLen n msg => if s.length < n then some msg else none
  | .maxLen n msg => if n < s.length then some msg else none
  | .pattern p msg => if patternOk p s then none else some msg

/-- zod parse of one field: the issue messages, in check order.  zod runs
every attached check and collects each failure (it does not stop at the
first); a type mismatch short-circuits the checks with a single issue.
Missing (`undefined`) required input raises zod's default `"Required"`
message, except for numbers, where the source passes
`required_error: 'This field is required'` and
`invalid_type_error: 'Must be a number'`. -/
def parseValidator : Validator → Raw → List String
  | .optional _, .jsUndefined => []
  | .optional v, r => parseValidator v r
  | .zString checks, r =>
      match r with
      | .str s => checks.filterMap (strCheckIssue s)
      | .jsUndefined => ["Required"]
      | _ => ["Invalid type"]
  | .zEnum vs, r =>
      match r with
      | .str s => if s ∈ vs then [] else ["Invalid enum value"]
      | .jsUndefined => ["Required"]
      | _ => ["Invalid type"]
  | .zNumber checks, r =>
      match r with
      | .num q => checks.filterMap (numCheckIssue q)
      | .jsUndefined => ["This field is required"]
      | _ => ["Must be a number"]
  | .zBool, r =>
      match r with
      | .bool _ => []
      | .jsUndefined => ["Required"]
      | _ => ["Invalid type"]
  | .zArray, r =>
      match r with
      | .fileList _ => ["Invalid type"]
      | .jsUndefined => ["Required"]
      | _ => ["Invalid type"]
  | .zFileList, r =>
      match r with
      | .fileList _ => []
      | _ => ["Input not instance of FileList"]
  | .zAny, _ => []

/-- Model of JS `parseFloat` on the inputs the form produces: optional
sign, decimal digits, optional fraction; trailing garbage is ignored and
an unparsable head is `NaN` (exponent notation is out of scope). -/
def parseFloatR (s : String) : Raw :=
  let l := s.data.dropWhile (fun c => c = ' ')
  let signed : Int × List Char :=
    match l with
    | '-' :: r => (-1, r)
    | '+' :: r => (1, r)
    | _ => (1, l)
  let ds := signed.2.takeWhile Char.isDigit
  let r1 := signed.2.dropWhile Char.isDigit
  let fds := match r1 with
    | '.' :: r => r.takeWhile Char.isDigit
    | _ => []
  if ds = [] ∧ fds = [] then .nan
  else
    let ip : Nat := ds.foldl (fun acc c => acc * 10 + (c.toNat - 48)) 0
    let fp : Nat := fds.foldl (fun acc c => acc * 10 + (c.toNat - 48)) 0
    .num (mkRat (signed.1 * (ip * 10 ^ fds.length + fp)) (10 ^ fds.length))

/-- Which input widget `renderField` chooses for a property (its
`if`/`else if` chain, in source order). -/
def inputTypeOf (p : JSONSchemaProperty) : String :=
  if p.type = "boolean" then "checkbox"
  else if p.enum.isSome then "select"
  else if p.format = some "email" then "email"
  else if p.format = some "textarea" then "textarea"
  else if p.type = "number" ∨ p.type = "integer" then "number"
  else if p.format = some "file" ∨ p.type = "array" then "file"
  else "text"

/-- The change-handler coercion for one field: number inputs map the empty
string to `undefined` and otherwise `parseFloat` the text; every other
widget passes the raw value through. -/
def coerceInput (p : JSONSchemaProperty) (r : Raw) : Raw :=
  if inputTypeOf p = "number" then
    match r with
    | .str t => if t = "" then .jsUndefined else parseFloatR t
    | x => x
  else r

/-- The property governing a key (last declaration wins, matching JS
object-assignment semantics in the shape). -/
def lookupLastProp (props : List (String × JSONSchemaProperty)) (k : String) :
    Option JSONSchemaProperty :=
  lookupV props.reverse k

/-- Raw value submitted for a key (`undefined` when absent). -/
def rawAt (raw : List (String × Raw)) (k : String) : Raw :=
  (lookupV raw k).getD .jsUndefined

/-- The coerced raw value the resolver sees for a key. -/
def coercedInput (schema : JSONSchema) (raw : List (String × Raw)) (k : String) : Raw :=
  match lookupLastProp schema.properties k with
  | some p => coerceInput p (rawAt raw k)
  | none => rawAt raw k

/-- The zod object parse: iterate the shape in insertion order and collect
every field's issues, keyed by field. -/
def collectIssues (shape : List (String × Validator)) (input : String → Raw) :
    List (String × String) :=
  match shape with
  | [] => []
  | (k, v) :: rest =>
      (parseValidator v (input k)).map (fun m => (k, m)) ++ collectIssues rest input

/-- The parsed value map on success: keys with a present (non-`undefined`)
value, in shape order. -/
def collectData (shape : List (String × Validator)) (input : String → Raw) :
    List (String × Raw) :=
  match shape with
  | [] => []
  | (k, _) :: rest =>
      match input k with
      | .jsUndefined => collectData rest input
      | r => (k, r) :: collectData rest input

/-- The spec's `ValidationResult`. -/
inductive VResult where
  | errors (es : List (String × String))
  | ok (values : List (String × Raw))
deriving DecidableEq

/-- The spec's `validate`: coerce each submitted raw value the way the
field's widget does, run the compiled zod object parse, and return either
the full error list (schema declaration order) or the coerced value map. -/
def validateForm (schema : JSONSchema) (raw : List (String × Raw)) : VResult :=
  match collectIssues (jsonSchemaToZod schema) (coercedInput schema raw) with
  | [] => .ok (collectData (jsonSchemaToZod schema) (coercedInput schema raw))
  | e :: es => .errors (e :: es)

/-! ### Sanitizer lemmas

The central invariant: in sanitized output every occurrence of `<` opens
a rendered allow-listed tag — either `<name⟨space or >⟩…` or a closing
`</name>…`.  The `<script>` fragment can therefore never occur. -/

/-- Every `<` in `l` is immediately followed by an allow-listed tag name
(then a space or `>`), or by `/` and an allow-listed tag name and `>`. -/
def LtOk (l : List Char) : Prop :=
  ∀ a b, l = a ++ '<' :: b →
    ∃ n d, n ∈ allowedTags ∧ (d = ' ' ∨ d = '>') ∧
      ((n ++ [d] <+: b) ∨ ('/' :: n ++ ['>'] <+: b))

theorem ltOk_nil : LtOk [] := by
  intro a b h
  exact absurd h.symm (by simp)

theorem noLt_escapeLt (t : List Char) : '<' ∉ escapeLt t := by
  induction t with
  | nil => simp [escapeLt]
  | cons c r ih =>
      by_cases hc : c = '<' <;> simp [escapeLt, hc, ih]
      exact fun h => hc h.symm

theorem ltOk_append {m : List Char} :
    ∀ x : List Char, '<' ∉ x → LtOk m → LtOk (x ++ m) := by
  intro x
  induction x with
  | nil => intro _ hm; simpa using hm
  | cons c cs ih =>
      intro hx hm a b h
      cases a with
      | nil =>
          simp only [List.nil_append] at h
          injection h with h1 h2
          exact absurd (h1 ▸ List.mem_cons_self c cs) hx
      | cons a0 as =>
          simp only [List.cons_append] at h
          injection h with h1 h2
          exact ih (fun hc => hx (List.mem_cons_of_mem c hc)) hm as b h2

theorem ltOk_tag_open {m ar n : List Char}
    (hn : n ∈ allowedTags) (hnlt : '<' ∉ n) (har : '<' ∉ ar)
    (hsh : ar = [] ∨ ∃ t, ar = ' ' :: t) (hm : LtOk m) :
    LtOk ('<' :: (n ++ ar) ++ '>' :: m) := by
  intro a b h
  cases a with
  | nil =>
      simp only [List.nil_append, List.cons_append] at h
      injection h with h1 h2
      rcases hsh with hsh | ⟨t, hsh⟩
      · subst hsh
        refine ⟨n, '>', hn, Or.inr rfl, Or.inl ⟨m, ?_⟩⟩
        simp [← h2]
      · subst hsh
        refine ⟨n, ' ', hn, Or.inl rfl, Or.inl ⟨t ++ '>' :: m, ?_⟩⟩
        simp [← h2]
  | cons a0 as =>
      simp only [List.cons_append] at h
      injection h with h1 h2
      have hx : '<' ∉ (n ++ ar) ++ ['>'] := by
        intro hc
        rcases List.mem_append.mp hc with hc | hc
        · rcases List.mem_append.mp hc with hc | hc
          · exact hnlt hc
          · exact har hc
        · simp at hc
      refine ltOk_append ((n ++ ar) ++ ['>']) hx hm as b ?_
      simpa using h2

theorem ltOk_tag_close {m n : List Char}
    (hn : n ∈ allowedTags) (hnlt : '<' ∉ n) (hm : LtOk m) :
    LtOk ('<' :: ('/' :: n) ++ '>' :: m) := by
  intro a b h
  cases a with
  | nil =>
      simp only [List.nil_append, List.cons_append] at h
      injection h with h1 h2
      refine ⟨n, '>', hn, Or.inr rfl, Or.inr ⟨m, ?_⟩⟩
      simp [← h2]
  | cons a0 as =>
      simp only [List.cons_append] at h
      injection h with h1 h2
      have hx : '<' ∉ ('/' :: n) ++ ['>'] := by
        intro hc
        rcases List.mem_append.mp hc with hc | hc
        · rcases List.mem_cons.mp hc with hc | hc
          · exact absurd hc (by decide)
          · exact hnlt hc
        · simp at hc
      refine ltOk_append (('/' :: n) ++ ['>']) hx hm as b ?_
      simpa using h2

theorem allowed_no_lt : ∀ n ∈ allowedTags, '<' ∉ n := by decide

theorem renderAttrs_no_lt :
    ∀ as : List (List Char × List Char),
      (∀ a ∈ as, cleanAttr a = true) → '<' ∉ renderAttrs as := by
  intro as
  induction as with
  | nil => intro _; simp [renderAttrs]
  | cons a r ih =>
      intro hall
      obtain ⟨an, av⟩ := a
      have ha := hall (an, av) (List.mem_cons_self _ _)
      simp only [cleanAttr, Bool.and_eq_true, decide_eq_true_eq] at ha
      intro hc
      simp only [renderAttrs, List.cons_append, List.mem_cons, List.mem_append] at hc
      rcases hc with hc | hc
      · exact absurd hc (by decide)
      · rcases hc with hc | hc
        · rcases hc with hc | hc | hc
          · exact ha.1.2 hc
          · exact absurd hc (by decide)
          · exact ha.2 hc
        · exact ih (fun x hx => hall x (List.mem_cons_of_mem _ hx)) hc

theorem renderAttrs_shape (as : List (List Char × List Char)) :
    renderAttrs as = [] ∨ ∃ t, renderAttrs as = ' ' :: t := by
  cases as with
  | nil => exact Or.inl rfl
  | cons a r => exact Or.inr ⟨_, rfl⟩

theorem closeBase_eq_some {name n : List Char} (h : (closeBase name) = some n) :
    name = '/' :: n ∧ n ∈ allowedTags := by
  cases name with
  | nil => simp [closeBase] at h
  | cons c cs =>
      simp only [closeBase] at h
      split at h
      · rename_i hcond
        injection h with h1
        subst h1
        exact ⟨by rw [hcond.1], hcond.2⟩
      · exact absurd h (by simp)

theorem ltOk_render (toks : List Tok) :
    LtOk (renderToks (sanitizeToks toks)) := by
  induction toks with
  | nil => exact ltOk_nil
  | cons tok r ih =>
      cases tok with
      | text t =>
          simp only [sanitizeToks, renderToks]
          exact ltOk_append (escapeLt t) (noLt_escapeLt t) ih
      | tag name attrs =>
          by_cases hmem : name ∈ allowedTags
          · simp only [sanitizeToks, hmem, if_true, renderToks]
            exact ltOk_tag_open hmem (allowed_no_lt name hmem)
              (renderAttrs_no_lt _ (fun a ha => List.of_mem_filter ha))
              (renderAttrs_shape _) ih
          · simp only [sanitizeToks, hmem, if_false]
            cases hcb : (closeBase name).isSome with
            | false => simpa [hcb] using ih
            | true =>
                obtain ⟨n, hn⟩ := Option.isSome_iff_exists.mp hcb
                obtain ⟨hname, hallow⟩ := closeBase_eq_some hn
                subst hname
                simp only [hcb, if_true, renderToks, renderAttrs, List.append_nil]
                exact ltOk_tag_close hallow (allowed_no_lt n hallow) ih

theorem prefix_take_of_prefix_append {l x c : List Char} (h : l <+: x ++ c) :
    l.take x.length <+: x := by
  obtain ⟨t, ht⟩ := h
  have h2 : (l ++ t).take x.length = x := by rw [ht]; exact List.take_left x c
  rw [List.take_append_eq_append_take] at h2
  exact ⟨_, h2⟩

theorem script_not_infix {l : List Char} (hl : LtOk l) :
    ¬ ("<script>".data <:+: l) := by
  intro hinf
  obtain ⟨s, t, hst⟩ := hinf
  have hdec : l = s ++ '<' :: ("script>".data ++ t) := by
    rw [← hst]
    simp [List.append_assoc]
  obtain ⟨n, d, hn, hd, hpre⟩ := hl s _ hdec
  rcases hpre with hp | hp
  · have htake := prefix_take_of_prefix_append (x := "script>".data) hp
    rcases hd with hd | hd <;> subst hd
    · exact absurd htake
        ((by decide : ∀ n ∈ allowedTags,
          ¬ ((n ++ [' ']).take ("script>".data.length) <+: "script>".data)) n hn)
    · exact absurd htake
        ((by decide : ∀ n ∈ allowedTags,
          ¬ ((n ++ ['>']).take ("script>".data.length) <+: "script>".data)) n hn)
  · obtain ⟨u, hu⟩ := hp
    have hhead : some '/' = some 's' := by
      simpa using congrArg List.head? hu
    exact absurd (Option.some.inj hhead) (by decide)

/-- No tag of a token stream carries an event-handler (`on…`) attribute. -/
def eventFreeToks : List Tok → Bool
  | [] => true
  | .text _ :: r => eventFreeToks r
  | .tag _ attrs :: r =>
      attrs.all (fun a => !startsWithOn a.1) && eventFreeToks r

theorem eventFree_sanitize (toks : List Tok) :
    eventFreeToks (sanitizeToks toks) = true := by
  induction toks with
  | nil => rfl
  | cons tok r ih =>
      cases tok with
      | text t => simpa [sanitizeToks, eventFreeToks] using ih
      | tag name attrs =>
          by_cases hmem : name ∈ allowedTags
          · simp only [sanitizeToks, hmem, if_true, eventFreeToks, Bool.and_eq_true]
            refine ⟨List.all_eq_true.mpr (fun a ha => ?_), ih⟩
            have := List.of_mem_filter ha
            simp only [cleanAttr, Bool.and_eq_true] at this
            simpa using this.1.1
          · cases hcb : (closeBase name).isSome with
            | false => simpa [sanitizeToks, hmem, hcb, eventFreeToks] using ih
            | true => simpa [sanitizeToks, hmem, hcb, eventFreeToks] using ih

/-! ### Validation lemmas -/

theorem mem_collectIssues {shape : List (String × Validator)} {input : String → Raw}
    {k : String} {v : Validator} {m : String}
    (hk : lookupV shape k = some v) (hm : m ∈ parseValidator v (input k)) :
    (k, m) ∈ collectIssues shape input := by
  induction shape with
  | nil => simp [lookupV] at hk
  | cons kv rest ih =>
      obtain ⟨k', v'⟩ := kv
      by_cases h : k' = k
      · subst h
        simp only [lookupV, if_true, Option.some.injEq] at hk
        subst hk
        simp only [collectIssues, List.mem_append, List.mem_map]
        exact Or.inl ⟨m, hm, rfl⟩
      · simp only [lookupV, if_neg h] at hk
        simp only [collectIssues, List.mem_append]
        exact Or.inr (ih hk)

theorem lookupV_append {α : Type} (l1 l2 : List (String × α)) (k : String) :
    lookupV (l1 ++ l2) k =
      match lookupV l1 k with
      | some v => some v
      | none => lookupV l2 k := by
  induction l1 with
  | nil => simp [lookupV]
  | cons kv r ih =>
      obtain ⟨k', v'⟩ := kv
      by_cases h : k' = k <;> simp [lookupV, h, ih]

theorem lookupV_insertShape (sh : List (String × Validator)) (k k' : String)
    (v : Validator) :
    lookupV (insertShape sh k v) k' =
      if k = k' then some v else lookupV sh k' := by
  induction sh with
  | nil => simp [insertShape, lookupV]
  | cons kv r ih =>
      obtain ⟨k0, v0⟩ := kv
      by_cases h0 : k0 = k
      · subst h0
        by_cases h1 : k0 = k' <;> simp [insertShape, lookupV, h1]
      · by_cases h1 : k0 = k'
        · subst h1
          have : ¬ k = k0 := fun h => h0 h.symm
          simp [insertShape, lookupV, h0, this]
        · simp [insertShape, lookupV, h0, h1, ih]

theorem lookupV_buildShape (req : List String) :
    ∀ (props : List (String × JSONSchemaProperty)) (sh : List (String × Validator))
      (k : String),
      lookupV (buildShape sh req props) k =
        match lookupV props.reverse k with
        | some p => some (compileProp p (req.contains k))
        | none => lookupV sh k := by
  intro props
  induction props with
  | nil => intro sh k; simp [buildShape, lookupV]
  | cons kp rest ih =>
      intro sh k
      obtain ⟨k0, p0⟩ := kp
      simp only [buildShape, List.reverse_cons]
      rw [ih, lookupV_append]
      cases hr : lookupV rest.reverse k with
      | some p => rfl
      | none =>
          simp only []
          rw [lookupV_insertShape]
          by_cases h0 : k0 = k
          · subst h0; simp [lookupV]
          · simp [lookupV, h0]

/-- The compiled validator of a key is determined by its last property
declaration and its membership in `required`. -/
theorem lookup_jsonSchemaToZod (schema : JSONSchema) (k : String) :
    lookupV (jsonSchemaToZod schema) k =
      match lookupLastProp schema.properties k with
      | some p => some (compileProp p (schema.required.contains k))
      | none => none := by
  unfold jsonSchemaToZod lookupLastProp
  rw [lookupV_buildShape]
  cases lookupV schema.properties.reverse k <;> simp [lookupV]

theorem coerceInput_absent (p : JSONSchemaProperty) :
    coerceInput p .jsUndefined = .jsUndefined := by
  unfold coerceInput
  split <;> rfl

/-- A required field of one of the four scalar kinds raises at least one
issue on missing (`undefined`) input. -/
theorem parse_absent_required {p : JSONSchemaProperty}
    (ht : p.type ∈ (["string", "number", "integer", "boolean"] : List String)) :
    parseValidator (compileProp p true) .jsUndefined ≠ [] := by
  simp only [List.mem_cons, List.not_mem_nil, or_false] at ht
  unfold compileProp
  rcases ht with ht | ht | ht | ht <;> rw [ht]
  · by_cases hf : p.format = some "email"
    · simp [hf, parseValidator]
    · cases he : p.enum <;> simp [hf, he, parseValidator]
  · simp [parseValidator]
  · simp [parseValidator]
  · simp [parseValidator]

/-! ### Table-branch lemmas -/

theorem jsIndex_ok {row : Value} (h : row ≠ .null) (k : String) :
    ∃ o, jsIndex row k = .ok o := by
  cases row with
  | null => exact absurd rfl h
  | bool b => exact ⟨_, rfl⟩
  | num q => exact ⟨_, rfl⟩
  | str s => exact ⟨_, rfl⟩
  | arr es => exact ⟨_, rfl⟩
  | obj fs => exact ⟨_, rfl⟩

theorem mapExc_ok {α β : Type} {f : α → Except JsError β} :
    ∀ {l : List α}, (∀ a ∈ l, ∃ b, f a = .ok b) →
      ∃ bs, mapExc f l = .ok bs ∧ bs.length = l.length := by
  intro l
  induction l with
  | nil => intro _; exact ⟨[], rfl, rfl⟩
  | cons a r ih =>
      intro hall
      obtain ⟨b, hb⟩ := hall a (List.mem_cons_self a r)
      obtain ⟨bs, hbs, hlen⟩ := ih (fun x hx => hall x (List.mem_cons_of_mem a hx))
      refine ⟨b :: bs, ?_, by simp [hlen]⟩
      simp only [mapExc, hb, hbs]
      rfl

theorem rowCells_ok {row : Value} (h : row ≠ .null) (keys : List String) :
    ∃ cs, rowCells keys row = .ok cs := by
  have := mapExc_ok (f := fun k => (jsIndex row k).map cellString)
    (l := keys) (fun k _ => by
      obtain ⟨o, ho⟩ := jsIndex_ok h k
      exact ⟨cellString o, by simp [ho, Except.map]⟩)
  obtain ⟨cs, hcs, _⟩ := this
  exact ⟨cs, hcs⟩

/-! ### Claim theorems -/

/-- C1: every string containing both `<` and `>` that matches neither the
image nor the file extension rule classifies as the sanitized markup
variant, and in the sanitized content no `<script>` fragment occurs and no
tag carries an event-handler (`on…`, in particular `onerror=`) attribute. -/
theorem c1_markup_sanitized (s : String)
    (h1 : containsChar s '<' = true) (h2 : containsChar s '>' = true)
    (h3 : imageExtTest s = false) (h4 : fileExtTest s = false) :
    classify (.str s) = .ok (.html (sanitizeHtml s)) ∧
    ¬ ("<script>".data <:+: (sanitizeHtml s).data) ∧
    eventFreeToks (sanitizeToks (tokenizeHtml s.data)) = true := by
  refine ⟨?_, ?_, eventFree_sanitize _⟩
  · simp [classify, h1, h2, h3, h4]
  · have h : (sanitizeHtml s).data = renderToks (sanitizeToks (tokenizeHtml s.data)) := rfl
    rw [h]
    exact script_not_infix (ltOk_render _)

/-- Witness for C1 at a concrete payload carrying both a `<script>` tag and
an `onerror=` attribute. -/
theorem c1_markup_sanitized_witness :
    containsChar "<script>alert(1)</script><img src=x onerror=steal()>" '<' = true ∧
    containsChar "<script>alert(1)</script><img src=x onerror=steal()>" '>' = true ∧
    imageExtTest "<script>alert(1)</script><img src=x onerror=steal()>" = false ∧
    fileExtTest "<script>alert(1)</script><img src=x onerror=steal()>" = false ∧
    (classify (.str "<script>alert(1)</script><img src=x onerror=steal()>")
        = .ok (.html (sanitizeHtml "<script>alert(1)</script><img src=x onerror=steal()>")) ∧
     ¬ ("<script>".data <:+:
          (sanitizeHtml "<script>alert(1)</script><img src=x onerror=steal()>").data) ∧
     eventFreeToks (sanitizeToks
        (tokenizeHtml "<script>alert(1)</script><img src=x onerror=steal()>".data)) = true) :=
  ⟨by decide, by decide, by decide, by decide,
   c1_markup_sanitized _ (by decide) (by decide) (by decide) (by decide)⟩

/-- C2 (code bug): the claim says `classify` never raises for well-formed
input, explicitly including arrays with `null` elements, but the table
branch enters on `typeof data[0] === 'object'` — which `null` satisfies —
and then `Object.keys(null)` throws a `TypeError`.  The second conjunct
shows the fallback half of the claim does hold for plain objects. -/
theorem c2_array_null_raises :
    classify (.arr [.null]) = .error .typeError ∧
    classify (.obj [("k", .num 1)]) = .ok (.jsonFallback (.obj [("k", .num 1)])) :=
  ⟨rfl, rfl⟩

/-- C3 counterexample: a duplicated key and an unrecognized kind both
compile successfully — no `SchemaError` is ever signalled, contradicting
the claim that they always yield one. -/
theorem c3_counterexample :
    (compile ⟨[("a", { type := "string" }), ("a", { type := "string" })], ["a"]⟩).isOk
        = true ∧
    (compile ⟨[("x", { type := "frobnicate" })], []⟩).isOk = true :=
  ⟨rfl, rfl⟩

/-- C3 amended: `compile` succeeds on every input sequence; an
unrecognized kind compiles to the accept-anything validator, and on a
duplicated key the last declaration wins. -/
theorem c3_amended :
    (∀ schema : JSONSchema, (compile schema).isOk = true) ∧
    (∀ (p : JSONSchemaProperty) (req : Bool),
        p.type ∉ (["string", "number", "integer", "boolean", "array"] : List String) →
        compileProp p req = if req then .zAny else .optional .zAny) ∧
    (∀ (props : List (String × JSONSchemaProperty)) (req : List String)
        (k : String) (p : JSONSchemaProperty),
        lookupV (buildShape [] req (props ++ [(k, p)])) k =
          some (compileProp p (req.contains k))) := by
  refine ⟨fun _ => rfl, ?_, ?_⟩
  · intro p req h
    simp only [List.mem_cons, List.not_mem_nil, or_false, not_or] at h
    obtain ⟨h1, h2, h3, h4, h5⟩ := h
    simp [compileProp, h1, h2, h3, h4, h5]
  · intro props req k p
    rw [lookupV_buildShape]
    simp [lookupV_append, lookupV]

/-- Witness for C3 amended at the unrecognized kind `frobnicate`. -/
theorem c3_amended_witness :
    ("frobnicate" ∉ (["string", "number", "integer", "boolean", "array"] : List String)) ∧
    compileProp { type := "frobnicate" } true = Validator.zAny :=
  ⟨by decide, by
    have := c3_amended.2.1 { type := "frobnicate" } true (by decide)
    simpa using this⟩

/-- C4 counterexample: the renderer has no schema-hint channel at all
(`OutputRendererProps` carries only `data`), so a numeric `0` under a
boolean-declaring output schema still classifies as the number variant —
never as a boolean badge — refuting "the hinted kind takes precedence". -/
theorem c4_counterexample :
    classify (.num 0) = .ok (.number 0) ∧
    RenderPlan.number 0 ≠ RenderPlan.bool true ∧
    RenderPlan.number 0 ≠ RenderPlan.bool false :=
  ⟨rfl, by simp, by simp⟩

/-- C4 amended: classification is entirely shape-inferred — the renderer
receives no `schemaHint`, and booleans/numbers always map to their
shape-determined variants. -/
theorem c4_amended :
    (∀ q : Rat, classify (.num q) = .ok (.number q)) ∧
    (∀ b : Bool, classify (.bool b) = .ok (.bool b)) :=
  ⟨fun _ => rfl, fun _ => rfl⟩

/-- C5 counterexample: a required string field with the empty string as
submitted value validates successfully — `z.string()` accepts `""` — so
"absent **or empty** yields a required error" is false for string kinds. -/
theorem c5_counterexample :
    validateForm ⟨[("name", { type := "string" })], ["name"]⟩ [("name", .str "")]
      = .ok [("name", .str "")] := by decide

/-- C5 amended: a required field of kind string/number/integer/boolean
whose key is absent from the submitted raw values always produces a field
error keyed to it (empty strings, by contrast, satisfy string kinds). -/
theorem c5_amended (schema : JSONSchema) (raw : List (String × Raw))
    (k : String) (p : JSONSchemaProperty)
    (hk : lookupLastProp schema.properties k = some p)
    (hreq : schema.required.contains k = true)
    (hkind : p.type ∈ (["string", "number", "integer", "boolean"] : List String))
    (habs : lookupV raw k = none) :
    ∃ es m, validateForm schema raw = .errors es ∧ (k, m) ∈ es := by
  have hshape : lookupV (jsonSchemaToZod schema) k = some (compileProp p true) := by
    rw [lookup_jsonSchemaToZod, hk, hreq]
  have hinput : coercedInput schema raw k = .jsUndefined := by
    unfold coercedInput rawAt
    rw [hk, habs]
    exact coerceInput_absent p
  obtain ⟨m, hm⟩ := List.exists_mem_of_ne_nil _ (parse_absent_required hkind)
  have hmem : (k, m) ∈ collectIssues (jsonSchemaToZod schema) (coercedInput schema raw) :=
    mem_collectIssues hshape (by rw [hinput]; exact hm)
  unfold validateForm
  cases hc : collectIssues (jsonSchemaToZod schema) (coercedInput schema raw) with
  | nil => rw [hc] at hmem; cases hmem
  | cons e es =>
      rw [hc] at hmem
      exact ⟨e :: es, m, rfl, hmem⟩

/-- Witness for C5 amended: one required string field, no submitted
values. -/
theorem c5_amended_witness :
    lookupLastProp [("name", ({ type := "string" } : JSONSchemaProperty))] "name"
        = some { type := "string" } ∧
    (["name"] : List String).contains "name" = true ∧
    ({ type := "string" } : JSONSchemaProperty).type
        ∈ (["string", "number", "integer", "boolean"] : List String) ∧
    lookupV ([] : List (String × Raw)) "name" = none ∧
    (∃ es m, validateForm ⟨[("name", { type := "string" })], ["name"]⟩ [] = .errors es ∧
      ("name", m) ∈ es) :=
  ⟨rfl, rfl, by decide, rfl,
   c5_amended ⟨[("name", { type := "string" })], ["name"]⟩ [] "name"
     { type := "string" } rfl rfl (by decide) rfl⟩

/-- C6: `validate` is a full-form pass — when it returns errors they are
exactly the concatenation, in schema declaration (shape) order, of every
field's issues; any single field's violation is never suppressed by
another field's; and the result is always data (an error list or a value
map), never an exception. -/
theorem c6_full_pass (schema : JSONSchema) (raw : List (String × Raw)) :
    (∀ es, validateForm schema raw = .errors es →
        es ≠ [] ∧ es = collectIssues (jsonSchemaToZod schema) (coercedInput schema raw)) ∧
    (∀ k v, lookupV (jsonSchemaToZod schema) k = some v →
        ∀ m ∈ parseValidator v (coercedInput schema raw k),
          ∃ es, validateForm schema raw = .errors es ∧ (k, m) ∈ es) ∧
    ((∃ es, validateForm schema raw = .errors es ∧ es ≠ []) ∨
     (∃ vals, validateForm schema raw = .ok vals ∧
        collectIssues (jsonSchemaToZod schema) (coercedInput schema raw) = [])) := by
  refine ⟨?_, ?_, ?_⟩
  · intro es h
    unfold validateForm at h
    cases hc : collectIssues (jsonSchemaToZod schema) (coercedInput schema raw) with
    | nil => rw [hc] at h; cases h
    | cons e es' =>
        rw [hc] at h
        injection h with h1
        exact ⟨h1 ▸ List.cons_ne_nil e es', h1 ▸ hc.symm ▸ rfl⟩
  · intro k v hk m hm
    have hmem : (k, m) ∈ collectIssues (jsonSchemaToZod schema) (coercedInput schema raw) :=
      mem_collectIssues hk hm
    unfold validateForm
    cases hc : collectIssues (jsonSchemaToZod schema) (coercedInput schema raw) with
    | nil => rw [hc] at hmem; cases hmem
    | cons e es' =>
        rw [hc] at hmem
        exact ⟨e :: es', rfl, hmem⟩
  · unfold validateForm
    cases hc : collectIssues (jsonSchemaToZod schema) (coercedInput schema raw) with
    | nil => exact Or.inr ⟨_, rfl, rfl⟩
    | cons e es' => exact Or.inl ⟨e :: es', rfl, List.cons_ne_nil e es'⟩

/-- Witness for C6: two fields, both violated, first field's error present
alongside the second's. -/
theorem c6_full_pass_witness :
    lookupV (jsonSchemaToZod ⟨[("a", { type := "string", minLength := some 5 }),
        ("b", { type := "integer", minimum := some 18 })], ["a", "b"]⟩) "a"
      = some (.zString [.minLen 5 "Minimum length is 5"]) ∧
    "Minimum length is 5" ∈ parseValidator (.zString [.minLen 5 "Minimum length is 5"])
      (coercedInput ⟨[("a", { type := "string", minLength := some 5 }),
        ("b", { type := "integer", minimum := some 18 })], ["a", "b"]⟩
        [("a", .str "hi"), ("b", .str "5")] "a") ∧
    (∃ es, validateForm ⟨[("a", { type := "string", minLength := some 5 }),
        ("b", { type := "integer", minimum := some 18 })], ["a", "b"]⟩
        [("a", .str "hi"), ("b", .str "5")] = .errors es ∧
      ("a", "Minimum length is 5") ∈ es) :=
  ⟨by decide, by decide,
   (c6_full_pass ⟨[("a", { type := "string", minLength := some 5 }),
       ("b", { type := "integer", minimum := some 18 })], ["a", "b"]⟩
       [("a", .str "hi"), ("b", .str "5")]).2.1
     "a" (.zString [.minLen 5 "Minimum length is 5"]) (by decide)
     "Minimum length is 5" (by decide)⟩

/-- C7: the scenario — integer field `age`, required, minimum 18,
submitted text `"17"` — yields exactly the single error
`("age", "Minimum value is 18")`; the second conjunct shows the text was
parsed to the number 17 before the minimum constraint was applied. -/
theorem c7_integer_minimum_scenario :
    validateForm ⟨[("age", { type := "integer", minimum := some 18 })], ["age"]⟩
        [("age", .str "17")]
      = .errors [("age", "Minimum value is 18")] ∧
    coercedInput ⟨[("age", { type := "integer", minimum := some 18 })], ["age"]⟩
        [("age", .str "17")] "age" = .num 17 :=
  ⟨by decide, by decide⟩

/-- C8 counterexample: a key missing from a later row renders as the text
`"undefined"` (JS `String(undefined)`), not as an empty cell, refuting
"a missing cell renders empty". -/
theorem c8_counterexample :
    classify (.arr [.obj [("a", .num 1)], .obj []])
      = .ok (.table ["a"] [["1"], ["undefined"]]) ∧
    ("undefined" : String) ≠ "" :=
  ⟨rfl, by decide⟩

/-- C8 amended: for every nonempty sequence headed by a keyed record (and
with no `null` later row, which would make the renderer throw), `classify`
yields the table variant whose columns are exactly the first row's keys —
keys appearing only in later rows are ignored — with one rendered row per
element; missing cells render as the string `"undefined"`. -/
theorem c8_amended (fs : List (String × Value)) (rest : List Value)
    (hnull : ∀ r ∈ rest, r ≠ Value.null) :
    ∃ rows, classify (.arr (.obj fs :: rest)) =
        .ok (.table (dedupKeys [] (fs.map Prod.fst)) rows) ∧
      rows.length = rest.length + 1 := by
  have hex : ∀ row ∈ (Value.obj fs :: rest),
      ∃ cs, rowCells (jsKeys (.obj fs)) row = .ok cs := by
    intro row hrow
    rcases List.mem_cons.mp hrow with h | h
    · subst h; exact rowCells_ok (by simp : Value.obj fs ≠ Value.null) _
    · exact rowCells_ok (hnull row h) _
  obtain ⟨rows, hrows, hlen⟩ := mapExc_ok hex
  refine ⟨rows, ?_, by simpa using hlen⟩
  have hstep : classify (.arr (.obj fs :: rest)) =
      (mapExc (rowCells (jsKeys (.obj fs))) (Value.obj fs :: rest)).bind
        (fun rs => Except.ok (.table (jsKeys (.obj fs)) rs)) := rfl
  rw [hstep, hrows]
  rfl

/-- Witness for C8 amended: two object rows, second missing the key. -/
theorem c8_amended_witness :
    (∀ r ∈ [Value.obj []], r ≠ Value.null) ∧
    (∃ rows, classify (.arr (Value.obj [("a", Value.num 1)] :: [Value.obj []])) =
        .ok (.table (dedupKeys [] ([("a", Value.num 1)].map Prod.fst)) rows) ∧
      rows.length = [Value.obj []].length + 1) := by
  have h : ∀ r ∈ [Value.obj []], r ≠ Value.null := by
    intro r hr
    rw [List.mem_singleton] at hr
    subst hr
    exact fun hc => nomatch hc
  exact ⟨h, c8_amended [("a", Value.num 1)] [Value.obj []] h⟩

/-- C9 counterexample: a 150-character string classifies to the very same
plain string variant as `"short"` — there is no length threshold and no
distinct long-text variant, refuting "long-text rather than plain-text". -/
theorem c9_counterexample :
    classify (.str (String.mk (List.replicate 150 'x')))
      = .ok (.text (String.mk (List.replicate 150 'x'))) ∧
    classify (.str "short") = .ok (.text "short") :=
  ⟨rfl, rfl⟩

/-- C9 amended: with no schema hint, `classify` maps 42 to the number
variant and every plain string — short or 150 characters long — to the
single string variant; the source has no display-length threshold. -/
theorem c9_amended :
    classify (.num 42) = .ok (.number 42) ∧
    classify (.str "short") = .ok (.text "short") ∧
    classify (.str (String.mk (List.replicate 150 'x')))
      = .ok (.text (String.mk (List.replicate 150 'x'))) :=
  ⟨rfl, rfl, rfl⟩

/-- C10: for a string field declaring both an email format and an enum,
compilation takes the email branch and the enum is silently dropped: the
compiled validator is exactly the email check, and an email-shaped value
outside the declared enum passes validation. -/
theorem c10_email_wins (vs : List String) (s : String)
    (hs : emailOk s = true) (_hnot : s ∉ vs) :
    compileProp { type := "string", format := some "email", enum := some vs } true
      = .zString [.email "Invalid email address"] ∧
    parseValidator
      (compileProp { type := "string", format := some "email", enum := some vs } true)
      (.str s) = [] := by
  refine ⟨rfl, ?_⟩
  simp [compileProp, parseValidator, strCheckIssue, hs]

/-- Witness for C10: `"a@b.com"` against the enum `["x", "y"]`. -/
theorem c10_email_wins_witness :
    emailOk "a@b.com" = true ∧
    "a@b.com" ∉ (["x", "y"] : List String) ∧
    (compileProp { type := "string", format := some "email", enum := some ["x", "y"] } true
        = .zString [.email "Invalid email address"] ∧
     parseValidator
       (compileProp { type := "string", format := some "email", enum := some ["x", "y"] } true)
       (.str "a@b.com") = []) :=
  ⟨by decide, by decide, c10_email_wins ["x", "y"] "a@b.com" (by decide) (by decide)⟩

end Interface
